import Mathlib

/-!
# Verification of the `pi` route trie (go-laeo/ezy)

Shallow embedding of the segment-trie router: the `_route` arena
(`Search`, `Insert`, `Invoke`, `Name`, `From`, `For` and the per-method
registration helpers), together with the surrounding data model
(`url.Values`, Go map semantics as association lists, `path.Clean`).

Nodes are stored in an arena (`Trie.nodes`); a node identifier is its
index, so Go pointer identity becomes index equality and the `parent`
pointer becomes an optional index.  The search loop of the Go code is
not structurally recursive (it backtracks through parent pointers), so
it is embedded with an explicit fuel parameter; fuel exhaustion is the
distinguished result `SR.out` and Go panics (negative slice index /
nil-map dereference in the backtracking loop) are the distinguished
result `SR.crash`, so that neither is confused with a genuine
"no match".
-/

set_option autoImplicit false

namespace pi

/-- `dynamic = ':'` (part_000 line 12). -/
def dynamic : Char := ':'

/-- `wildcard = '*'` (part_000 line 13). -/
def wildcard : Char := '*'

/-- `anyone = "*"` (part_000 line 14): the catch-all method key. -/
def anyone : String := "*"

/-- The reserved child key `":"` under which a dynamic child is indexed. -/
def dynKey : String := ":"

/-- The reserved child key `"*"` under which a wildcard child is indexed. -/
def wildKey : String := "*"

/-! ## Go maps as association lists -/

/-- Go map lookup `m[k]` (comma-ok form): first entry with the given key. -/
def lookupKey {A : Type} : List (String × A) → String → Option A
  | [], _ => none
  | (k, v) :: rest, key => if k = key then some v else lookupKey rest key

/-- Go map update `m[k] = v`: replace the entry in place, or append. -/
def setKey {A : Type} : List (String × A) → String → A → List (String × A)
  | [], key, v => [(key, v)]
  | (k, w) :: rest, key, v =>
      if k = key then (key, v) :: rest else (k, w) :: setKey rest key v

/-! ## `url.Values` -/

/-- `url.Values`: a multimap from keys to ordered value lists, flattened
to a list of pairs in insertion order. -/
abbrev Values := List (String × String)

/-- `Values.Add`: append `v` to the values associated with `k`. -/
def vAdd (vs : Values) (k v : String) : Values := vs ++ [(k, v)]

/-- All values associated with key `k`, in insertion order (`vs[k]`). -/
def vGetAll (vs : Values) (k : String) : List String :=
  (vs.filter (fun p => p.1 = k)).map (fun p => p.2)

/-- `Values.Has`. -/
def vHas (vs : Values) (k : String) : Bool := vs.any (fun p => p.1 = k)

/-- `Values.Get`: first value for `k`, or `""`. -/
def vGet (vs : Values) (k : String) : String := (vGetAll vs k).headD ""

/-- `Values.Del`: remove every value for `k`. -/
def vDel (vs : Values) (k : String) : Values := vs.filter (fun p => p.1 ≠ k)

/-! ## `path.Clean` and segment splitting -/

/-- Splitting of a character list at a separator, accumulator holding
the current (reversed) chunk. -/
def splitChars (sep : Char) : List Char → List Char → List String
  | [], acc => [String.mk acc.reverse]
  | c :: rest, acc =>
    if c = sep then String.mk acc.reverse :: splitChars sep rest []
    else splitChars sep rest (c :: acc)

/-- One step of the `path.Clean` element processing: push a literal
element, or resolve `".."` against the stack (stack held reversed). -/
def cleanStep (rooted : Bool) (acc : List String) (s : String) : List String :=
  if s = ".." then
    match acc with
    | [] => if rooted then [] else [".."]
    | top :: rest => if top = ".." then s :: acc else rest
  else s :: acc

/-- `path.Clean` (Go standard library, called by `Search` and `Insert`
at part_000 lines 69 and 133): collapse repeated separators, eliminate
`.` elements, resolve `..` elements (dropping them at a rooted root),
no trailing slash, `"."` for an empty result. -/
def cleanPath (p : String) : String :=
  if p = "" then "." else
  let rooted := p.front = '/'
  let comps := (splitChars '/' p.data []).filter (fun s => s ≠ "" ∧ s ≠ ".")
  let stack := comps.foldl (cleanStep rooted) []
  let body := String.intercalate "/" stack.reverse
  if rooted then (if body = "" then "/" else "/" ++ body)
  else (if body = "" then "." else body)

/-- `strings.Split(route, "/")` (part_000 lines 70 and 135): split at
every `'/'`, keeping empty chunks; `""` splits to `[""]`. -/
def splitSlash (s : String) : List String := splitChars '/' s.data []

/-- `strings.Join(chunks, "/")` (part_000 lines 95 and 117). -/
def joinSlash (chunks : List String) : String := String.intercalate "/" chunks

/-! ## The node arena -/

/-- `_route` (part_000 lines 47-58).  `parent`, `sub` and `named` hold
node indices instead of pointers; `H` is the handler type. -/
structure RNode (H : Type) where
  parent : Option Nat
  sub : List (String × Nat)
  hmap : List (String × H)
  named : List (String × Nat)
  pattern : String
  placeholder : String
  name : String
  cc : List (H → H)
  hasDynamicChild : Bool
  hasWildcardChild : Bool

/-- The arena of nodes; a `Route` value is an index into `nodes`. -/
structure Trie (H : Type) where
  nodes : List (RNode H)

variable {H : Type}

/-- Dereference a node index. -/
def nodeAt (t : Trie H) (n : Nat) : Option (RNode H) := t.nodes.get? n

/-- Mutate the node at index `n` in place (no-op when out of range). -/
def updateAt (t : Trie H) (n : Nat) (f : RNode H → RNode H) : Trie H :=
  match t.nodes.get? n with
  | some r => ⟨t.nodes.set n (f r)⟩
  | none => t

/-- `createRootRoute` (part_000 lines 60-66): an arena holding only the
root node, index `0`. -/
def rootTrie (H : Type) : Trie H :=
  ⟨[{ parent := none, sub := [], hmap := [], named := [], pattern := "",
      placeholder := "", name := "", cc := [], hasDynamicChild := false,
      hasWildcardChild := false }]⟩

/-- `current.sub[seg]` comma-ok lookup. -/
def subLookup (t : Trie H) (n : Nat) (k : String) : Option Nat :=
  match nodeAt t n with
  | some r => lookupKey r.sub k
  | none => none

/-- `current.hasDynamicChild`. -/
def hasDynAt (t : Trie H) (n : Nat) : Bool :=
  ((nodeAt t n).map (fun r => r.hasDynamicChild)).getD false

/-- `current.hasWildcardChild`. -/
def hasWildAt (t : Trie H) (n : Nat) : Bool :=
  ((nodeAt t n).map (fun r => r.hasWildcardChild)).getD false

/-- `next.placeholder`. -/
def placeholderAt (t : Trie H) (n : Nat) : String :=
  ((nodeAt t n).map (fun r => r.placeholder)).getD ""

/-- `current.parent` (none for the root or a dangling index). -/
def parentOf (t : Trie H) (n : Nat) : Option Nat :=
  (nodeAt t n).bind (fun r => r.parent)

/-- `next.pattern`. -/
def patternAt (t : Trie H) (n : Nat) : String :=
  ((nodeAt t n).map (fun r => r.pattern)).getD ""

/-! ## Search (part_000 lines 68-130) -/

/-- `chunks[i]` with a Go slice-index panic (negative or past the end)
reported as `none`. -/
def chunkAt (chunks : List String) (i : Int) : Option String :=
  if i < 0 then none else chunks.get? i.toNat

/-- `chunks[i:]` with a Go slice-bounds panic reported as `none`. -/
def chunkSuffix (chunks : List String) (i : Int) : Option (List String) :=
  if i < 0 ∨ (chunks.length : Int) < i then none else some (chunks.drop i.toNat)

/-- Result of the backtracking loop (part_000 lines 101-126). -/
inductive BT
  /-- Jump into an ancestor's dynamic child and resume the outer loop at
  segment index `i` (`continue SEARCH` after `i--` then `i++`). -/
  | resume (nx : Nat) (i : Int) (vs : Values)
  /-- Jump into an ancestor's wildcard child and return it (line 118). -/
  | wildHit (nx : Nat) (vs : Values)
  /-- The root was reached with no alternative: `return nil` (line 126). -/
  | dead (vs : Values)
  /-- A Go runtime panic (nil-map miss at lines 104/114 followed by a nil
  dereference, or a negative slice index). -/
  | crash
  /-- Fuel exhausted (cannot happen with enough fuel). -/
  | out
  deriving DecidableEq

/-- The backtracking loop `for current.parent != nil { ... }` of
`Search` (part_000 lines 101-126).  `c` is `current`, `i` the outer
segment index at this level.  Each iteration inspects the parent's
dynamic and wildcard children, guarded by `next != current` (index
inequality), and otherwise steps up with `i--`. -/
def backtrack (t : Trie H) (chunks : List String) :
    Nat → Nat → Int → Values → BT
  | 0, _, _, _ => .out
  | fuel+1, c, i, vs =>
    match parentOf t c with
    | none => .dead vs
    | some p =>
      let wildStep : BT :=
        if hasWildAt t p then
          match subLookup t p wildKey with
          | some nx =>
            if nx ≠ c then
              match chunkSuffix chunks (i - 1) with
              | some rest => .wildHit nx (vAdd vs (placeholderAt t nx) (joinSlash rest))
              | none => .crash
            else backtrack t chunks fuel p (i - 1) vs
          | none => .crash
        else backtrack t chunks fuel p (i - 1) vs
      if hasDynAt t p then
        match subLookup t p dynKey with
        | some nx =>
          if nx ≠ c then
            match chunkAt chunks (i - 1) with
            | some s => .resume nx i (vAdd vs (placeholderAt t nx) s)
            | none => .crash
          else wildStep
        | none => .crash
      else wildStep

/-- Result of `Search`. -/
inductive SR
  /-- A node was returned (lines 97, 118 or 129). -/
  | found (n : Nat) (vs : Values)
  /-- `return nil` from the dead-end path (line 126). -/
  | nomatch (vs : Values)
  /-- A Go runtime panic. -/
  | crash
  /-- Fuel exhausted. -/
  | out
  deriving DecidableEq

/-- The labelled outer loop `SEARCH` of `Search` (part_000 lines
74-127): exact child, then dynamic child, then wildcard child, then the
backtracking loop; falling off the end of the segments returns the
current node (line 129). -/
def searchLoop (t : Trie H) (chunks : List String) :
    Nat → Nat → Int → Values → SR
  | 0, _, _, _ => .out
  | fuel+1, cur, i, vs =>
    if i < (chunks.length : Int) then
      match chunkAt chunks i with
      | none => .crash
      | some seg =>
        match subLookup t cur seg with
        | some nx => searchLoop t chunks fuel nx (i + 1) vs
        | none =>
          let btStep : SR :=
            match backtrack t chunks (fuel + 1) cur i vs with
            | .resume nx i2 vs2 => searchLoop t chunks fuel nx i2 vs2
            | .wildHit nx vs2 => .found nx vs2
            | .dead vs2 => .nomatch vs2
            | .crash => .crash
            | .out => .out
          let wildStep : SR :=
            if hasWildAt t cur then
              match subLookup t cur wildKey with
              | some nx =>
                match chunkSuffix chunks i with
                | some rest =>
                    .found nx (vAdd vs (placeholderAt t nx) (joinSlash rest))
                | none => .crash
              | none => btStep
            else btStep
          if hasDynAt t cur then
            match subLookup t cur dynKey with
            | some nx =>
                searchLoop t chunks fuel nx (i + 1)
                  (vAdd vs (placeholderAt t nx) seg)
            | none => wildStep
          else wildStep
    else .found cur vs

/-- A fuel bound comfortably above the number of loop iterations any
run of `Search` can perform. -/
def searchFuel (t : Trie H) (chunks : List String) : Nat :=
  (t.nodes.length + 1) * (chunks.length + 1) + chunks.length + 1

/-- `Search` (part_000 lines 68-130), called on the node `p` (the
receiver; the root in every use in the repository). -/
def Search (t : Trie H) (p : Nat) (route : String) (vs : Values) : SR :=
  let chunks := splitSlash (cleanPath route)
  searchLoop t chunks (searchFuel t chunks) p 0 vs

/-! ## Insert (part_000 lines 132-176) -/

/-- The node-creation arm of `Insert`'s segment loop (lines 146-166):
allocate a child with `pattern = placeholder = seg`, strip the marker
from `placeholder` and index the child under the reserved `":"` / `"*"`
key when the segment starts with the dynamic / wildcard marker, and
always index it under its literal text. -/
def createChild (t : Trie H) (cur : Nat) (seg : String) : Trie H × Nat :=
  let newId := t.nodes.length
  let base : RNode H :=
    { parent := some cur, sub := [], hmap := [], named := [],
      pattern := seg, placeholder := seg, name := "", cc := [],
      hasDynamicChild := false, hasWildcardChild := false }
  let isDyn := seg.length > 0 && seg.front = dynamic
  let isWild := seg.length > 0 && seg.front = wildcard
  let child := if isDyn || isWild then { base with placeholder := seg.drop 1 } else base
  let t1 := updateAt t cur (fun r =>
    if isDyn then
      { r with hasDynamicChild := true,
               sub := setKey (setKey r.sub dynKey newId) seg newId }
    else if isWild then
      { r with hasWildcardChild := true,
               sub := setKey (setKey r.sub wildKey newId) seg newId }
    else { r with sub := setKey r.sub seg newId })
  (⟨t1.nodes ++ [child]⟩, newId)

/-- One iteration of `Insert`'s segment loop (lines 135-167): follow an
existing child or create one. -/
def insertStep (t : Trie H) (cur : Nat) (seg : String) : Trie H × Nat :=
  match subLookup t cur seg with
  | some next => (t, next)
  | none => createChild t cur seg

/-- The segment loop of `Insert` over all chunks. -/
def insertWalk (t : Trie H) (cur : Nat) : List String → Trie H × Nat
  | [] => (t, cur)
  | seg :: rest =>
    let s := insertStep t cur seg
    insertWalk s.1 s.2 rest

/-- `Insert` (part_000 lines 132-176): clean and split the route, walk
or grow the trie from node `p`, then append `cc` to the terminal node's
middleware chain; returns the terminal node. -/
def Insert (t : Trie H) (p : Nat) (route : String) (cc : List (H → H)) :
    Trie H × Nat :=
  let w := insertWalk t p (splitSlash (cleanPath route))
  (updateAt w.1 w.2 (fun r => { r with cc := r.cc ++ cc }), w.2)

/-! ## Middleware and method registration (part_000 lines 243-278) -/

/-- Modelled from the spec: `HandlerFunc.Connect` is not among the
provided source files (only its call sites in part_000 are).  Per the
spec it is "an explicit ordered list of transform functions applied to
a base handler at registration time, producing one composed callable",
wrapping `h` "by the full chain, in registration order": the first
middleware in `cc` becomes the outermost wrapper. -/
def Connect (h : H) (cc : List (H → H)) : H :=
  cc.foldr (fun m acc => m acc) h

/-- The middleware chain `p.cc` of node `n`. -/
def ccAt (t : Trie H) (n : Nat) : List (H → H) :=
  ((nodeAt t n).map (fun r => r.cc)).getD []

/-- Handler registered at node `n` for `method` (`p.hmap[method]`). -/
def hmapAt (t : Trie H) (n : Nat) (method : String) : Option H :=
  (nodeAt t n).bind (fun r => lookupKey r.hmap method)

/-- `For` (part_000 lines 243-246): store `h.Connect(p.cc...)` under
`method` in the node's handler map. -/
def For (t : Trie H) (p : Nat) (method : String) (h : H) : Trie H :=
  updateAt t p (fun r => { r with hmap := setKey r.hmap method (Connect h r.cc) })

/-- `Get` (lines 248-250): `p.For(http.MethodGet, h)`. -/
def Get (t : Trie H) (p : Nat) (h : H) : Trie H := For t p "GET" h

/-- `Post` (lines 252-254): `p.For(http.MethodPost, h.Connect(p.cc...))`. -/
def Post (t : Trie H) (p : Nat) (h : H) : Trie H :=
  For t p "POST" (Connect h (ccAt t p))

/-- `Put` (lines 256-258). -/
def Put (t : Trie H) (p : Nat) (h : H) : Trie H :=
  For t p "PUT" (Connect h (ccAt t p))

/-- `Delete` (lines 260-262). -/
def Delete (t : Trie H) (p : Nat) (h : H) : Trie H :=
  For t p "DELETE" (Connect h (ccAt t p))

/-- `Patch` (lines 264-266). -/
def Patch (t : Trie H) (p : Nat) (h : H) : Trie H :=
  For t p "PATCH" (Connect h (ccAt t p))

/-- `Options` (lines 268-270). -/
def Options (t : Trie H) (p : Nat) (h : H) : Trie H :=
  For t p "OPTIONS" (Connect h (ccAt t p))

/-- `Head` (lines 272-274). -/
def Head (t : Trie H) (p : Nat) (h : H) : Trie H :=
  For t p "HEAD" (Connect h (ccAt t p))

/-- `Any` (lines 276-278): registers under `string(wildcard) = "*"`,
the same key `Invoke` uses as its catch-all fallback. -/
def Any (t : Trie H) (p : Nat) (h : H) : Trie H :=
  For t p anyone (Connect h (ccAt t p))

/-! ## Invoke (part_000 lines 178-199) -/

/-- The `*Error` structure with `NewError` constructor. -/
structure PiError where
  Code : Nat
  Message : String
  deriving DecidableEq

/-- `NewError(code, msg)`. -/
def NewError (code : Nat) (msg : String) : PiError := ⟨code, msg⟩

/-- A Go `error` as seen by `Invoke`'s type switch: either a structured
`*Error` or any other error, of which only the `Error()` text matters. -/
inductive GoError
  | structured (e : PiError)
  | generic (msg : String)
  deriving DecidableEq

/-- The observable `Context` state `Invoke` interacts with:
`ctx.Method()`, `ctx.Code(...)` and `ctx.Json(...)`. -/
structure Ctx where
  method : String
  code : Nat
  body : Option PiError
  deriving DecidableEq

/-- `HandlerFunc`: consumes a context, returns an optional error and
the context after its own side effects. -/
def Handler := Ctx → Option GoError × Ctx

/-- Handler resolution of `Invoke` (lines 179-182): the method's own
handler, else the `anyone` (`"*"`) catch-all. -/
def resolveHandler (r : RNode Handler) (method : String) : Option Handler :=
  match lookupKey r.hmap method with
  | some fn => some fn
  | none => lookupKey r.hmap anyone

/-- `Invoke` (part_000 lines 178-199): resolve a handler (else report
`false`), run it, and map an error to the context: a structured error's
own code and body (lines 190-191), otherwise 500 with
`NewError(500, err.Error())` (lines 193-194); report `true` once a
handler was found. -/
def Invoke (r : RNode Handler) (c : Ctx) : Bool × Ctx :=
  match resolveHandler r c.method with
  | none => (false, c)
  | some fn =>
    let res := fn c
    match res.1 with
    | none => (true, res.2)
    | some (.structured e) => (true, { res.2 with code := e.Code, body := some e })
    | some (.generic msg) =>
        (true, { res.2 with code := 500, body := some (NewError 500 msg) })

/-! ## Name and From (part_000 lines 201-241) -/

/-- The `for root.parent != nil` walk to the root (lines 203-206 and
212-215), fueled by the arena size. -/
def rootOf (t : Trie H) : Nat → Nat → Nat
  | 0, n => n
  | fuel+1, n =>
    match parentOf t n with
    | some p => rootOf t fuel p
    | none => n

/-- `Name` (part_000 lines 201-209): label the node, then record it in
the root's name registry. -/
def Name (t : Trie H) (p : Nat) (nm : String) : Trie H :=
  let t1 := updateAt t p (fun r => { r with name := nm })
  let root := rootOf t1 t1.nodes.length p
  updateAt t1 root (fun r => { r with named := setKey r.named nm p })

/-- The segment-collection loop of `From` (lines 222-232): walk from
the named node towards the root while the pattern is nonempty, taking
a supplied value for the placeholder (and deleting it) when present,
else the literal pattern text. -/
def buildSegs (t : Trie H) : Nat → Option Nat → Values → List String → List String
  | 0, _, _, acc => acc
  | _+1, none, _, acc => acc
  | fuel+1, some id, v, acc =>
    match nodeAt t id with
    | none => acc
    | some r =>
      if r.pattern = "" then acc
      else if vHas v r.placeholder then
        buildSegs t fuel r.parent (vDel v r.placeholder) (acc ++ [vGet v r.placeholder])
      else
        buildSegs t fuel r.parent v (acc ++ [r.pattern])

/-- `From` (part_000 lines 211-241): look the name up in the root's
registry (`nil` when absent), collect segments child-to-root, then emit
them root-to-child, each preceded by `'/'`. -/
def From (t : Trie H) (p : Nat) (nm : String) (v : Values) : Option String :=
  let root := rootOf t t.nodes.length p
  match lookupKey (((nodeAt t root).map (fun r => r.named)).getD []) nm with
  | none => none
  | some target =>
    let segs := buildSegs t (t.nodes.length + 1) (some target) v []
    some (segs.reverse.foldl (fun acc s => acc ++ "/" ++ s) "")

/-! ## Concrete registered tries used by the claims -/

/-- Registration of `/a/:x/c` into a fresh trie. -/
def insC1a : Trie Unit × Nat := Insert (rootTrie Unit) 0 "/a/:x/c" []

/-- Registration of `/a/b/d` on top of `insC1a`. -/
def insC1b : Trie Unit × Nat := Insert insC1a.1 0 "/a/b/d" []

/-- The trie with `/a/:x/c` and `/a/b/d` registered. -/
def trieC1 : Trie Unit := insC1b.1

/-- Registration of `/users/me` into a fresh trie. -/
def insC3a : Trie Unit × Nat := Insert (rootTrie Unit) 0 "/users/me" []

/-- Registration of `/users/:id` on top of `insC3a`. -/
def insC3b : Trie Unit × Nat := Insert insC3a.1 0 "/users/:id" []

/-- The trie with `/users/me` and `/users/:id` registered. -/
def trieC3 : Trie Unit := insC3b.1

/-- Registration of `/files/*rest` into a fresh trie. -/
def insC4 : Trie Unit × Nat := Insert (rootTrie Unit) 0 "/files/*rest" []

/-- The trie with only `/files/*rest` registered. -/
def trieC4 : Trie Unit := insC4.1

/-- Registration of `/files/*rest/deep` on top of `insC4`: a node
living below the wildcard node. -/
def insC4b : Trie Unit × Nat := Insert insC4.1 0 "/files/*rest/deep" []

/-- Registration of `/users/:id` into a fresh trie. -/
def insC5 : Trie Unit × Nat := Insert (rootTrie Unit) 0 "/users/:id" []

/-- Registration of `/a/*w` on top of `insC1a` (so the trie holds
`/a/:x/c` and `/a/*w`). -/
def insC10 : Trie Unit × Nat := Insert insC1a.1 0 "/a/*w" []

/-- The trie with `/a/:x/c` and `/a/*w` registered. -/
def trieC10 : Trie Unit := insC10.1

/-- Registration of `/p` with a one-element middleware chain, over the
handler type `Nat` with middleware `Nat.succ` — a chain on which
wrapping once and wrapping twice are distinguishable. -/
def insC2 : Trie Nat × Nat := Insert (rootTrie Nat) 0 "/p" [fun n => n + 1]

/-- Registration of `/users/:id` (handler type `Unit`) for the
`Name`/`From` round trip. -/
def insC8 : Trie Unit × Nat := Insert (rootTrie Unit) 0 "/users/:id" []

/-- `insC8` with its terminal node named `"profile"`. -/
def trieC8 : Trie Unit := Name insC8.1 insC8.2 "profile"

/-- Registration of `/x/:a/:a`: two nested dynamic segments sharing the
placeholder name `a`. -/
def insC8b : Trie Unit × Nat := Insert (rootTrie Unit) 0 "/x/:a/:a" []

/-- `insC8b` with its terminal node named `"n"`. -/
def trieC8b : Trie Unit := Name insC8b.1 insC8b.2 "n"

/-- A handler returning no error. -/
def fnOk : Handler := fun c => (none, c)

/-- A handler returning the structured error `418 / "teapot"`. -/
def fnStruct : Handler := fun c => (some (.structured ⟨418, "teapot"⟩), c)

/-- A handler returning a non-structured error. -/
def fnGeneric : Handler := fun c => (some (.generic "boom"), c)

/-- A node whose handler map has a `"GET"` entry and an `anyone`
catch-all entry. -/
def rBoth : RNode Handler :=
  { parent := none, sub := [], hmap := [("GET", fnOk), (anyone, fnStruct)],
    named := [], pattern := "", placeholder := "", name := "", cc := [],
    hasDynamicChild := false, hasWildcardChild := false }

/-- A node with an empty handler map. -/
def rEmpty : RNode Handler :=
  { parent := none, sub := [], hmap := [], named := [], pattern := "",
    placeholder := "", name := "", cc := [], hasDynamicChild := false,
    hasWildcardChild := false }

/-- A request context with method `"POST"`. -/
def cPost : Ctx := { method := "POST", code := 200, body := none }

/-! ## Definitions for the universal claims -/

/-- The projection of a node to the fields `Search` reads: `parent`,
`sub`, `placeholder` and the two child flags (`hmap`, `cc`, `name` and
`pattern` are invisible to `Search`). -/
def nodeView (r : RNode H) : Option Nat × List (String × Nat) × String × Bool × Bool :=
  (r.parent, r.sub, r.placeholder, r.hasDynamicChild, r.hasWildcardChild)

/-- The `Search`-visible projection of a whole arena. -/
def viewsOf (t : Trie H) : List (Option Nat × List (String × Nat) × String × Bool × Bool) :=
  t.nodes.map nodeView

/-- The ancestor chain from a node to the root offers no unexplored
dynamic or wildcard alternative: at every step the parent either lacks
the child flag or its reserved child is the node just abandoned.  This
is exactly the situation in which the backtracking loop of `Search`
falls through to `return nil`. -/
inductive NoAltToRoot (t : Trie H) : Nat → Prop
  | root (c : Nat) : parentOf t c = none → NoAltToRoot t c
  | up (c p : Nat) :
      parentOf t c = some p →
      (hasDynAt t p = false ∨ subLookup t p dynKey = some c) →
      (hasWildAt t p = false ∨ subLookup t p wildKey = some c) →
      NoAltToRoot t p → NoAltToRoot t c

/-- Well-formedness of an arena: every child edge goes from a node to a
strictly larger, in-range index.  This holds for every trie built by
`Insert` from `rootTrie` (children are appended at the end of the
arena) and rules out cyclic child chains. -/
def wfb (t : Trie H) : Bool :=
  (List.range t.nodes.length).all (fun n =>
    ((nodeAt t n).map (fun r =>
      r.sub.all (fun kv => n < kv.2 && kv.2 < t.nodes.length))).getD true)

/-- Propositional form of `wfb`: every successful child lookup leads to
a strictly larger, in-range node index. -/
def wfp (t : Trie H) : Prop :=
  ∀ (n : Nat) (k : String) (j : Nat),
    subLookup t n k = some j → n < j ∧ j < t.nodes.length

/-- Pure lookup walk along literal child keys (the path `Insert`
follows when every segment already exists). -/
def walkPath (t : Trie H) : Nat → List String → Option Nat
  | cur, [] => some cur
  | cur, seg :: rest =>
    match subLookup t cur seg with
    | some j => walkPath t j rest
    | none => none

/-! # Theorems -/

/-- C1: with `/a/:x/c` and `/a/b/d` registered, `Search("/a/b/d", …)`
returns the node registered for `/a/b/d` via the literal branch with
nothing captured, and `Search("/a/q/c", …)` returns the node registered
for `/a/:x/c` via the dynamic branch at the same level after the
literal lookup of `"q"` fails, capturing `x → "q"`; the two nodes are
distinct. -/
theorem C1_backtracking :
    Search trieC1 0 "/a/b/d" [] = .found insC1b.2 []
    ∧ Search trieC1 0 "/a/q/c" [] = .found insC1a.2 [("x", "q")]
    ∧ vGetAll [("x", "q")] "x" = ["q"]
    ∧ insC1a.2 ≠ insC1b.2 := by decide

/-- C3: at every node, an existing literal child for the current
segment is taken before the dynamic child is even considered and adds
no capture (first conjunct, for every trie); concretely, with both
`/users/me` and `/users/:id` registered, `Search("/users/me", …)`
resolves to the literal node, not the dynamic one, with an empty
capture set. -/
theorem C3_literal_priority :
    (∀ (H : Type) (t : Trie H) (chunks : List String) (fuel : Nat)
       (cur : Nat) (i : Int) (vs : Values) (seg : String) (nx : Nat),
        i < (chunks.length : Int) → chunkAt chunks i = some seg →
        subLookup t cur seg = some nx →
        searchLoop t chunks (fuel + 1) cur i vs
          = searchLoop t chunks fuel nx (i + 1) vs)
    ∧ Search trieC3 0 "/users/me" [] = .found insC3a.2 []
    ∧ insC3a.2 ≠ insC3b.2 := by
  refine ⟨?_, by decide, by decide⟩
  intro H t chunks fuel cur i vs seg nx hlt hseg hsub
  simp only [searchLoop, hseg, hsub, if_pos hlt]

/-- Closed instance of the universal part of `C3_literal_priority`: at
the root of `trieC3`, the literal child for segment `""` is descended
into directly. -/
theorem C3_literal_priority_witness :
    searchLoop trieC3 [""] 2 0 0 [] = searchLoop trieC3 [""] 1 1 1 [] :=
  C3_literal_priority.1 Unit trieC3 [""] 1 0 0 [] "" 1 (by decide)
    (by decide) (by decide)

/-- C4: when the current segment has no literal match, the node has no
dynamic child but has a wildcard child, `Search` joins all remaining
segments with `"/"` into one capture for the wildcard placeholder and
returns the wildcard node immediately (first conjunct, for every
trie); concretely `Search("/files/a/b/c", …)` on `/files/*rest` yields
`rest → "a/b/c"`, and even with a node registered below the wildcard
(`/files/*rest/deep`), `Search("/files/a/deep", …)` still returns the
wildcard node without descending to it. -/
theorem C4_wildcard_terminal :
    (∀ (H : Type) (t : Trie H) (chunks : List String) (fuel : Nat)
       (cur : Nat) (i : Int) (vs : Values) (seg : String) (nx : Nat)
       (rest : List String),
        i < (chunks.length : Int) → chunkAt chunks i = some seg →
        subLookup t cur seg = none → hasDynAt t cur = false →
        hasWildAt t cur = true → subLookup t cur wildKey = some nx →
        chunkSuffix chunks i = some rest →
        searchLoop t chunks (fuel + 1) cur i vs
          = .found nx (vAdd vs (placeholderAt t nx) (joinSlash rest)))
    ∧ Search trieC4 0 "/files/a/b/c" [] = .found insC4.2 [("rest", "a/b/c")]
    ∧ vGetAll [("rest", "a/b/c")] "rest" = ["a/b/c"]
    ∧ Search insC4b.1 0 "/files/a/deep" [] = .found insC4.2 [("rest", "a/deep")]
    ∧ insC4b.2 ≠ insC4.2 := by
  refine ⟨?_, by decide, by decide, by decide, by decide⟩
  intro H t chunks fuel cur i vs seg nx rest hlt hseg hsub hdyn hwild hw hsuf
  simp only [searchLoop, hseg, hsub, hdyn, hwild, hw, hsuf, if_pos hlt,
    Bool.false_eq_true, if_false, if_true]

/-- Closed instance of the universal part of `C4_wildcard_terminal`:
in `trieC4` at the `files` node (index 2), segment `"a"` triggers the
wildcard child. -/
theorem C4_wildcard_terminal_witness :
    searchLoop trieC4 ["a", "b"] 1 2 0 [] = .found 3 [("rest", "a/b")] :=
  C4_wildcard_terminal.1 Unit trieC4 ["a", "b"] 0 2 0 [] "a" 3 ["a", "b"]
    (by decide) (by decide) (by decide) (by decide) (by decide) (by decide)
    (by decide)

/-- C5: for the registered pattern `/users/:id`, `Search("/users/42")`
returns that pattern's node with `captured["id"] == ["42"]`; the node's
placeholder is the parameter name with the `:` marker stripped, while
its pattern keeps the raw text. -/
theorem C5_dynamic_capture :
    Search insC5.1 0 "/users/42" [] = .found insC5.2 [("id", "42")]
    ∧ vGetAll [("id", "42")] "id" = ["42"]
    ∧ placeholderAt insC5.1 insC5.2 = "id"
    ∧ patternAt insC5.1 insC5.2 = ":id" := by decide

/-- C10: with `/a/:x/c` and `/a/*w` registered, `Search("/a/q/z", …)`
first captures `x → "q"` descending into the dynamic branch, abandons
that branch at the dead end `"z"`, backtracks into the wildcard branch
capturing `w → "q/z"` — and the abandoned capture `x → "q"` is never
removed, so the returned capture set holds values for a placeholder
that is not on the matched route (the matched node's placeholder is
`w`, not `x`). -/
theorem C10_stale_captures :
    Search trieC10 0 "/a/q/z" [] = .found insC10.2 [("x", "q"), ("w", "q/z")]
    ∧ vGetAll [("x", "q"), ("w", "q/z")] "x" = ["q"]
    ∧ vGetAll [("x", "q"), ("w", "q/z")] "w" = ["q/z"]
    ∧ placeholderAt trieC10 insC10.2 = "w"
    ∧ insC10.2 ≠ insC1a.2 := by decide

/-- C2: evaluation of the registration helpers at a node whose
middleware chain is `[Nat.succ]` over handler type `Nat`, handler `0`.
`For` and `Get` store the handler wrapped once (`1`), but `Post`,
`Put`, `Delete`, `Patch`, `Options`, `Head` and `Any` pre-wrap the
handler with `Connect` before handing it to `For`, which wraps again:
the stored handler is the double wrap `2`, not the single wrap
`Connect 0 cc = 1` the claim requires. -/
theorem C2_post_double_wraps :
    Connect 0 (ccAt insC2.1 insC2.2) = 1
    ∧ hmapAt (For insC2.1 insC2.2 "POST" 0) insC2.2 "POST" = some 1
    ∧ hmapAt (Get insC2.1 insC2.2 0) insC2.2 "GET" = some 1
    ∧ hmapAt (Post insC2.1 insC2.2 0) insC2.2 "POST" = some 2
    ∧ hmapAt (Put insC2.1 insC2.2 0) insC2.2 "PUT" = some 2
    ∧ hmapAt (Delete insC2.1 insC2.2 0) insC2.2 "DELETE" = some 2
    ∧ hmapAt (Patch insC2.1 insC2.2 0) insC2.2 "PATCH" = some 2
    ∧ hmapAt (Options insC2.1 insC2.2 0) insC2.2 "OPTIONS" = some 2
    ∧ hmapAt (Head insC2.1 insC2.2 0) insC2.2 "HEAD" = some 2
    ∧ hmapAt (Any insC2.1 insC2.2 0) insC2.2 anyone = some 2 := by decide

/-- C8: `Name`/`From` round-trip on `/users/:id` named `"profile"`:
`From("profile", {id: "7"})` yields `/users/7`; an unregistered name
yields no result; and on `/x/:a/:a` (two placeholders named `a`) a
single supplied value is consumed by the deepest node and not reused by
its ancestor, which falls back to its literal pattern text. -/
theorem C8_name_from_round_trip :
    From trieC8 0 "profile" [("id", "7")] = some "/users/7"
    ∧ From trieC8 0 "nosuch" [("id", "7")] = none
    ∧ From trieC8b 0 "n" [("a", "7")] = some "/x/:a/7" := by decide

/-- C7: `Invoke` resolves the handler registered for the context's
method, falling back to the `anyone` (`"*"`) catch-all only when the
method has none; with neither it reports `false` leaving the context
untouched.  Once a handler is resolved it reports `true` whatever the
handler returned: no error leaves the handler's context as is, a
structured error surfaces its own code and body, and any other error
maps to code 500 with `NewError(500, text)`. -/
theorem C7_invoke_dispatch :
    (∀ (r : RNode Handler) (m : String) (fn : Handler),
        lookupKey r.hmap m = some fn → resolveHandler r m = some fn)
    ∧ (∀ (r : RNode Handler) (m : String) (fn : Handler),
        lookupKey r.hmap m = none → lookupKey r.hmap anyone = some fn →
        resolveHandler r m = some fn)
    ∧ (∀ (r : RNode Handler) (c : Ctx),
        resolveHandler r c.method = none → Invoke r c = (false, c))
    ∧ (∀ (r : RNode Handler) (c : Ctx) (fn : Handler),
        resolveHandler r c.method = some fn →
        (Invoke r c).1 = true
        ∧ ((fn c).1 = none → Invoke r c = (true, (fn c).2))
        ∧ (∀ e : PiError, (fn c).1 = some (.structured e) →
            Invoke r c = (true, { (fn c).2 with code := e.Code, body := some e }))
        ∧ (∀ msg : String, (fn c).1 = some (.generic msg) →
            Invoke r c
              = (true, { (fn c).2 with code := 500, body := some (NewError 500 msg) }))) := by
  refine ⟨?_, ?_, ?_, ?_⟩
  · intro r m fn h
    simp only [resolveHandler, h]
  · intro r m fn h1 h2
    simp only [resolveHandler, h1, h2]
  · intro r c h
    simp only [Invoke, h]
  · intro r c fn h
    refine ⟨?_, ?_, ?_, ?_⟩
    · rcases hc : (fn c).1 with _ | e
      · simp only [Invoke, h, hc]
      · rcases e with e | msg <;> simp only [Invoke, h, hc]
    · intro h0
      simp only [Invoke, h, h0]
    · intro e he
      simp only [Invoke, h, he]
    · intro msg hm
      simp only [Invoke, h, hm]

section ViewInvariance

variable {H' : Type}

/-- Pointwise consequence of equal `Search`-visible projections. -/
theorem viewAt_eq {t : Trie H} {t' : Trie H'} (h : viewsOf t = viewsOf t')
    (n : Nat) : (nodeAt t n).map nodeView = (nodeAt t' n).map nodeView := by
  have h2 := congrArg (fun l => l.get? n) h
  simpa [viewsOf, nodeAt, List.get?_eq_getElem?, List.getElem?_map] using h2

/-- `subLookup` only reads the view. -/
theorem subLookup_viewsEq {t : Trie H} {t' : Trie H'}
    (h : viewsOf t = viewsOf t') (n : Nat) (k : String) :
    subLookup t n k = subLookup t' n k := by
  have h2 := viewAt_eq h n
  unfold subLookup
  cases ha : nodeAt t n <;> cases hb : nodeAt t' n <;>
    rw [ha, hb] at h2 <;> simp [nodeView, Prod.ext_iff] at h2 ⊢
  exact congrArg (fun s => lookupKey s k) h2.2.1

/-- `hasDynAt` only reads the view. -/
theorem hasDynAt_viewsEq {t : Trie H} {t' : Trie H'}
    (h : viewsOf t = viewsOf t') (n : Nat) : hasDynAt t n = hasDynAt t' n := by
  have h2 := viewAt_eq h n
  unfold hasDynAt
  cases ha : nodeAt t n <;> cases hb : nodeAt t' n <;>
    rw [ha, hb] at h2 <;> simp [nodeView, Prod.ext_iff] at h2 ⊢
  exact h2.2.2.2.1

/-- `hasWildAt` only reads the view. -/
theorem hasWildAt_viewsEq {t : Trie H} {t' : Trie H'}
    (h : viewsOf t = viewsOf t') (n : Nat) : hasWildAt t n = hasWildAt t' n := by
  have h2 := viewAt_eq h n
  unfold hasWildAt
  cases ha : nodeAt t n <;> cases hb : nodeAt t' n <;>
    rw [ha, hb] at h2 <;> simp [nodeView, Prod.ext_iff] at h2 ⊢
  exact h2.2.2.2.2

/-- `placeholderAt` only reads the view. -/
theorem placeholderAt_viewsEq {t : Trie H} {t' : Trie H'}
    (h : viewsOf t = viewsOf t') (n : Nat) :
    placeholderAt t n = placeholderAt t' n := by
  have h2 := viewAt_eq h n
  unfold placeholderAt
  cases ha : nodeAt t n <;> cases hb : nodeAt t' n <;>
    rw [ha, hb] at h2 <;> simp [nodeView, Prod.ext_iff] at h2 ⊢
  exact h2.2.2.1

/-- `parentOf` only reads the view. -/
theorem parentOf_viewsEq {t : Trie H} {t' : Trie H'}
    (h : viewsOf t = viewsOf t') (n : Nat) : parentOf t n = parentOf t' n := by
  have h2 := viewAt_eq h n
  unfold parentOf
  cases ha : nodeAt t n <;> cases hb : nodeAt t' n <;>
    rw [ha, hb] at h2 <;> simp [nodeView, Prod.ext_iff] at h2 ⊢
  exact h2.1

/-- The backtracking loop only reads the view. -/
theorem backtrack_viewsEq {t : Trie H} {t' : Trie H'}
    (h : viewsOf t = viewsOf t') (chunks : List String) :
    ∀ (fuel : Nat) (c : Nat) (i : Int) (vs : Values),
      backtrack t chunks fuel c i vs = backtrack t' chunks fuel c i vs := by
  intro fuel
  induction fuel with
  | zero => intro c i vs; rfl
  | succ fuel ih =>
    intro c i vs
    simp only [backtrack, parentOf_viewsEq h, subLookup_viewsEq h,
      hasDynAt_viewsEq h, hasWildAt_viewsEq h, placeholderAt_viewsEq h, ih]

/-- The search loop only reads the view: handlers, middleware chains,
names and raw pattern text are invisible to `Search`. -/
theorem searchLoop_viewsEq {t : Trie H} {t' : Trie H'}
    (h : viewsOf t = viewsOf t') (chunks : List String) :
    ∀ (fuel : Nat) (cur : Nat) (i : Int) (vs : Values),
      searchLoop t chunks fuel cur i vs = searchLoop t' chunks fuel cur i vs := by
  intro fuel
  induction fuel with
  | zero => intro cur i vs; rfl
  | succ fuel ih =>
    intro cur i vs
    simp only [searchLoop, subLookup_viewsEq h, hasDynAt_viewsEq h,
      hasWildAt_viewsEq h, placeholderAt_viewsEq h, backtrack_viewsEq h, ih]

end ViewInvariance

/-- The backtracking loop reports a dead end only when the whole
ancestor chain up to the root offers no unexplored dynamic or wildcard
alternative. -/
theorem backtrack_dead {t : Trie H} {chunks : List String} :
    ∀ (fuel : Nat) (c : Nat) (i : Int) (vs vs2 : Values),
      backtrack t chunks fuel c i vs = .dead vs2 → NoAltToRoot t c := by
  intro fuel
  induction fuel with
  | zero =>
    intro c i vs vs2 h
    simp only [backtrack] at h
    cases h
  | succ fuel ih =>
    intro c i vs vs2 h
    simp only [backtrack] at h
    split at h
    next hp => exact NoAltToRoot.root c hp
    next p hp =>
      split at h
      next hd =>
        split at h
        next nx hsd =>
          split at h
          next hne =>
            split at h
            next s hca => simp at h
            next hca => simp at h
          next hne =>
            have hdc : subLookup t p dynKey = some c := by
              rw [hsd, not_not.mp hne]
            split at h
            next hw =>
              split at h
              next nw hsw =>
                split at h
                next hnw =>
                  split at h
                  next rest hcs => simp at h
                  next hcs => simp at h
                next hnw =>
                  have hwc : subLookup t p wildKey = some c := by
                    rw [hsw, not_not.mp hnw]
                  exact NoAltToRoot.up c p hp (Or.inr hdc) (Or.inr hwc)
                    (ih p (i - 1) vs vs2 h)
              next hsw => simp at h
            next hw =>
              exact NoAltToRoot.up c p hp (Or.inr hdc) (Or.inl (by simpa using hw))
                (ih p (i - 1) vs vs2 h)
        next hsd => simp at h
      next hd =>
        have hdf : hasDynAt t p = false := by simpa using hd
        split at h
        next hw =>
          split at h
          next nw hsw =>
            split at h
            next hnw =>
              split at h
              next rest hcs => simp at h
              next hcs => simp at h
            next hnw =>
              have hwc : subLookup t p wildKey = some c := by
                rw [hsw, not_not.mp hnw]
              exact NoAltToRoot.up c p hp (Or.inl hdf) (Or.inr hwc)
                (ih p (i - 1) vs vs2 h)
          next hsw => simp at h
        next hw =>
          exact NoAltToRoot.up c p hp (Or.inl hdf) (Or.inl (by simpa using hw))
            (ih p (i - 1) vs vs2 h)

/-- The search loop reports "no match" only when some dead-end node's
whole ancestor chain up to the root offered no unexplored dynamic or
wildcard alternative. -/
theorem searchLoop_nomatch {t : Trie H} {chunks : List String} :
    ∀ (fuel : Nat) (cur : Nat) (i : Int) (vs vs2 : Values),
      searchLoop t chunks fuel cur i vs = .nomatch vs2 →
      ∃ c, NoAltToRoot t c := by
  intro fuel
  induction fuel with
  | zero =>
    intro cur i vs vs2 h
    simp only [searchLoop] at h
    cases h
  | succ fuel ih =>
    intro cur i vs vs2 h
    simp only [searchLoop] at h
    split at h
    case isFalse hi => simp at h
    case isTrue hi =>
    split at h
    next hca => simp at h
    next seg hca =>
    split at h
    next nx hsub => exact ih nx (i + 1) vs vs2 h
    next hsub =>
    split at h
    next hd =>
      split at h
      next nx hsd => exact ih nx (i + 1) (vAdd vs (placeholderAt t nx) seg) vs2 h
      next hsd =>
      split at h
      next hw =>
        split at h
        next nx hsw =>
          split at h
          next rest hcs => simp at h
          next hcs => simp at h
        next hsw =>
          split at h
          next nx i2 vs3 hbt => exact ih nx i2 vs3 vs2 h
          next nx vs3 hbt => simp at h
          next vs3 hbt =>
            exact ⟨cur, backtrack_dead (fuel + 1) cur i vs vs3 hbt⟩
          next hbt => simp at h
          next hbt => simp at h
      next hw =>
        split at h
        next nx i2 vs3 hbt => exact ih nx i2 vs3 vs2 h
        next nx vs3 hbt => simp at h
        next vs3 hbt =>
          exact ⟨cur, backtrack_dead (fuel + 1) cur i vs vs3 hbt⟩
        next hbt => simp at h
        next hbt => simp at h
    next hd =>
      split at h
      next hw =>
        split at h
        next nx hsw =>
          split at h
          next rest hcs => simp at h
          next hcs => simp at h
        next hsw =>
          split at h
          next nx i2 vs3 hbt => exact ih nx i2 vs3 vs2 h
          next nx vs3 hbt => simp at h
          next vs3 hbt =>
            exact ⟨cur, backtrack_dead (fuel + 1) cur i vs vs3 hbt⟩
          next hbt => simp at h
          next hbt => simp at h
      next hw =>
        split at h
        next nx i2 vs3 hbt => exact ih nx i2 vs3 vs2 h
        next nx vs3 hbt => simp at h
        next vs3 hbt =>
          exact ⟨cur, backtrack_dead (fuel + 1) cur i vs vs3 hbt⟩
        next hbt => simp at h
        next hbt => simp at h

/-- C6: (1) whenever the segment index runs past the end of the
(cleaned, split) path, the search loop returns the node the cursor
rests on; (2) the outcome is independent of everything but the
`Search`-visible view — in particular of every node's registered
handlers; (3) the loop answers "no match" only when backtracking from
some dead-end node reaches the root with no unexplored dynamic or
wildcard alternative along the ancestor chain. -/
theorem C6_search_outcomes :
    (∀ (H : Type) (t : Trie H) (chunks : List String) (fuel : Nat)
       (cur : Nat) (i : Int) (vs : Values),
        (chunks.length : Int) ≤ i →
        searchLoop t chunks (fuel + 1) cur i vs = .found cur vs)
    ∧ (∀ (H H' : Type) (t : Trie H) (t' : Trie H'),
        viewsOf t = viewsOf t' →
        ∀ (chunks : List String) (fuel : Nat) (cur : Nat) (i : Int) (vs : Values),
          searchLoop t chunks fuel cur i vs = searchLoop t' chunks fuel cur i vs)
    ∧ (∀ (H : Type) (t : Trie H) (chunks : List String) (fuel : Nat)
       (cur : Nat) (i : Int) (vs vs2 : Values),
        searchLoop t chunks fuel cur i vs = .nomatch vs2 →
        ∃ c, NoAltToRoot t c) := by
  refine ⟨?_, ?_, ?_⟩
  · intro H t chunks fuel cur i vs hle
    simp only [searchLoop, if_neg (not_lt.mpr hle)]
  · intro H H' t t' hv chunks fuel cur i vs
    exact searchLoop_viewsEq hv chunks fuel cur i vs
  · intro H t chunks fuel cur i vs vs2 h
    exact searchLoop_nomatch fuel cur i vs vs2 h

/-- Closed instance of `C6_search_outcomes`: the exhausted-segments
exit on the root trie; view-equality of two root tries with different
handler types; and a concrete no-match run on the root trie whose
backtracking stops at the (parentless) root. -/
theorem C6_search_outcomes_witness :
    searchLoop (rootTrie Unit) ["a"] 3 0 2 [] = .found 0 []
    ∧ searchLoop (rootTrie Unit) ["a"] 2 0 0 []
        = searchLoop (rootTrie Bool) ["a"] 2 0 0 []
    ∧ (∃ c, NoAltToRoot (rootTrie Unit) c) :=
  ⟨C6_search_outcomes.1 Unit (rootTrie Unit) ["a"] 2 0 2 [] (by decide),
   C6_search_outcomes.2.1 Unit Bool (rootTrie Unit) (rootTrie Bool) rfl
     ["a"] 2 0 0 [],
   C6_search_outcomes.2.2 Unit (rootTrie Unit) ["a"] 2 0 0 [] [] (by decide)⟩

/-- Closed instance of `C7_invoke_dispatch`: on a node carrying a
`"GET"` handler and an `anyone` catch-all, `"GET"` resolves to its own
handler, `"POST"` falls back to the catch-all; on a node with no
handlers `Invoke` reports `false`; and the catch-all's structured
`418/"teapot"` error surfaces its own code and body while `Invoke`
still reports `true`. -/
theorem C7_invoke_dispatch_witness :
    resolveHandler rBoth "GET" = some fnOk
    ∧ resolveHandler rBoth "POST" = some fnStruct
    ∧ Invoke rEmpty cPost = (false, cPost)
    ∧ (Invoke rBoth cPost).1 = true
    ∧ Invoke rBoth cPost
        = (true, { cPost with code := 418, body := some ⟨418, "teapot"⟩ }) :=
  ⟨C7_invoke_dispatch.1 rBoth "GET" fnOk rfl,
   C7_invoke_dispatch.2.1 rBoth "POST" fnStruct rfl rfl,
   C7_invoke_dispatch.2.2.1 rEmpty cPost rfl,
   (C7_invoke_dispatch.2.2.2 rBoth cPost fnStruct rfl).1,
   (C7_invoke_dispatch.2.2.2 rBoth cPost fnStruct rfl).2.2.1 ⟨418, "teapot"⟩ rfl⟩

/-- Go map update/lookup interaction. -/
theorem lookupKey_setKey {A : Type} (l : List (String × A)) (k k2 : String) (v : A) :
    lookupKey (setKey l k v) k2 = if k2 = k then some v else lookupKey l k2 := by
  induction l with
  | nil =>
    simp only [setKey, lookupKey]
    by_cases h : k = k2
    · rw [if_pos h, if_pos h.symm]
    · rw [if_neg h, if_neg (fun hh => h hh.symm)]
  | cons hd tl ih =>
    obtain ⟨a, b⟩ := hd
    simp only [setKey]
    by_cases hak : a = k
    · rw [if_pos hak]
      simp only [lookupKey]
      by_cases h : k = k2
      · rw [if_pos h, if_pos h.symm]
      · rw [if_neg h, if_neg (fun hh => h hh.symm),
          if_neg (fun hh => h (hak ▸ hh))]
    · rw [if_neg hak]
      simp only [lookupKey, ih]
      by_cases hk2 : a = k2
      · have h2 : ¬ k2 = k := fun hh => hak (hh ▸ hk2)
        rw [if_pos hk2, if_neg h2, if_pos hk2]
      · rw [if_neg hk2, if_neg hk2]

/-- A successful Go map lookup exhibits a list member. -/
theorem mem_of_lookupKey {A : Type} {l : List (String × A)} {k : String} {v : A}
    (h : lookupKey l k = some v) : (k, v) ∈ l := by
  induction l with
  | nil => cases h
  | cons hd tl ih =>
    obtain ⟨a, b⟩ := hd
    simp only [lookupKey] at h
    by_cases hak : a = k
    · rw [if_pos hak] at h
      cases h
      subst hak
      exact List.mem_cons_self _ _
    · rw [if_neg hak] at h
      exact List.mem_cons_of_mem _ (ih h)

/-- A dereferenceable index is in range. -/
theorem nodeAt_lt {t : Trie H} {n : Nat} {r : RNode H} (h : nodeAt t n = some r) :
    n < t.nodes.length := by
  unfold nodeAt at h
  by_contra hge
  rw [List.get?_eq_none.mpr (by omega)] at h
  cases h

/-- An in-range index is dereferenceable. -/
theorem nodeAt_of_lt {t : Trie H} {n : Nat} (h : n < t.nodes.length) :
    ∃ r, nodeAt t n = some r := by
  cases hn : nodeAt t n with
  | some r => exact ⟨r, rfl⟩
  | none =>
    unfold nodeAt at hn
    exact absurd (List.get?_eq_none.mp hn) (by omega)

/-- `wfb` implies `wfp`. -/
theorem wfp_of_wfb {t : Trie H} (hw : wfb t = true) : wfp t := by
  intro n k j h
  unfold subLookup at h
  cases hn : nodeAt t n with
  | none => rw [hn] at h; cases h
  | some r =>
    rw [hn] at h
    have hlt : n < t.nodes.length := nodeAt_lt hn
    unfold wfb at hw
    rw [List.all_eq_true] at hw
    have h2 := hw n (List.mem_range.mpr hlt)
    rw [hn] at h2
    simp only [Option.map_some', Option.getD_some, List.all_eq_true] at h2
    have h3 := h2 (k, j) (mem_of_lookupKey h)
    simpa using h3

/-- `updateAt` preserves the arena size. -/
theorem updateAt_length (t : Trie H) (n : Nat) (f : RNode H → RNode H) :
    (updateAt t n f).nodes.length = t.nodes.length := by
  unfold updateAt
  cases h : t.nodes.get? n <;> simp

/-- `updateAt` rewrites the targeted node. -/
theorem nodeAt_updateAt_self {t : Trie H} {n : Nat} {r : RNode H}
    (f : RNode H → RNode H) (h : nodeAt t n = some r) :
    nodeAt (updateAt t n f) n = some (f r) := by
  have hlt : n < t.nodes.length := nodeAt_lt h
  unfold nodeAt updateAt at *
  rw [h]
  exact List.get?_set_eq_of_lt (f r) hlt

/-- `updateAt` leaves other nodes alone. -/
theorem nodeAt_updateAt_ne {t : Trie H} {m n : Nat} (f : RNode H → RNode H)
    (hmn : m ≠ n) : nodeAt (updateAt t n f) m = nodeAt t m := by
  unfold nodeAt updateAt
  cases h : t.nodes.get? n with
  | none => rfl
  | some r => exact List.get?_set_ne _ _ (Ne.symm hmn)

/-- Appending a node leaves existing indices alone. -/
theorem nodeAt_append_lt {t : Trie H} {c : RNode H} {m : Nat}
    (h : m < t.nodes.length) :
    nodeAt (⟨t.nodes ++ [c]⟩ : Trie H) m = nodeAt t m := by
  unfold nodeAt
  exact List.get?_append h

/-- The appended node sits at the old length. -/
theorem nodeAt_append_len {t : Trie H} {c : RNode H} :
    nodeAt (⟨t.nodes ++ [c]⟩ : Trie H) t.nodes.length = some c := by
  unfold nodeAt
  exact List.get?_concat_length _ _

/-- `subLookup` is determined by `nodeAt`. -/
theorem subLookup_congr {t t' : Trie H} {n : Nat}
    (h : nodeAt t' n = nodeAt t n) (k : String) :
    subLookup t' n k = subLookup t n k := by
  unfold subLookup
  rw [h]

/-- `updateAt` with a `sub`-preserving mutation changes no `subLookup`. -/
theorem subLookup_updateAt_subpres {t : Trie H} {n : Nat}
    {f : RNode H → RNode H} (hf : ∀ r, (f r).sub = r.sub) (m : Nat) (k : String) :
    subLookup (updateAt t n f) m k = subLookup t m k := by
  by_cases hmn : m = n
  · subst hmn
    cases hr : nodeAt t m with
    | none =>
      unfold updateAt nodeAt at *
      rw [hr]
    | some r =>
      simp only [subLookup, nodeAt_updateAt_self f hr, hr, hf r]
  · exact subLookup_congr (nodeAt_updateAt_ne f hmn) k

/-- `walkPath` is determined by `subLookup`. -/
theorem walkPath_congr {t t' : Trie H}
    (h : ∀ n k, subLookup t' n k = subLookup t n k) :
    ∀ (chunks : List String) (cur : Nat),
      walkPath t' cur chunks = walkPath t cur chunks := by
  intro chunks
  induction chunks with
  | nil => intro cur; rfl
  | cons seg rest ih =>
    intro cur
    simp only [walkPath, h]
    cases subLookup t cur seg with
    | none => rfl
    | some j => exact ih j

/-- A walk that only follows existing children makes `insertWalk` a
structural no-op returning the walked-to node. -/
theorem insertWalk_of_walkPath {t : Trie H} :
    ∀ (chunks : List String) (cur id : Nat),
      walkPath t cur chunks = some id → insertWalk t cur chunks = (t, id) := by
  intro chunks
  induction chunks with
  | nil =>
    intro cur id h
    simp only [walkPath] at h
    cases h
    rfl
  | cons seg rest ih =>
    intro cur id h
    simp only [walkPath] at h
    cases hs : subLookup t cur seg with
    | none =>
      simp only [hs] at h
      cases h
    | some j =>
      simp only [hs] at h
      simp only [insertWalk, insertStep, hs]
      exact ih j id h

/-- `createChild` decomposed: it appends one empty-`sub` child node and
rewrites the parent so that the new segment key (and possibly a
reserved key) maps to the fresh index, never mapping any key to an old
index that was not already there. -/
theorem createChild_parts (t : Trie H) (cur : Nat) (seg : String) :
    ∃ (g : RNode H → RNode H) (child : RNode H),
      createChild t cur seg
          = (⟨(updateAt t cur g).nodes ++ [child]⟩, t.nodes.length)
      ∧ child.sub = []
      ∧ (∀ r : RNode H, lookupKey (g r).sub seg = some t.nodes.length)
      ∧ (∀ (r : RNode H) (k : String) (j : Nat),
          lookupKey (g r).sub k = some j →
          j = t.nodes.length ∨ lookupKey r.sub k = some j) := by
  refine ⟨_, _, rfl, ?_, ?_, ?_⟩
  · split <;> rfl
  · intro r
    split
    · simp [lookupKey_setKey]
    · split
      · simp [lookupKey_setKey]
      · simp [lookupKey_setKey]
  · intro r k j hl
    split at hl <;> [skip; split at hl] <;>
      simp only [lookupKey_setKey] at hl <;> split_ifs at hl <;>
      first
        | (cases hl; exact Or.inl rfl)
        | exact Or.inr hl

/-- The create arm of `Insert`'s loop: the new node index, arena
growth, untouched other nodes, the literal lookup of the new segment,
and preservation of well-formedness. -/
theorem createChild_spec {t : Trie H} {cur : Nat} (seg : String)
    (hw : wfp t) (hc : cur < t.nodes.length) :
    (createChild t cur seg).2 = t.nodes.length
    ∧ (createChild t cur seg).1.nodes.length = t.nodes.length + 1
    ∧ (∀ m, m ≠ cur → m < t.nodes.length →
        nodeAt (createChild t cur seg).1 m = nodeAt t m)
    ∧ subLookup (createChild t cur seg).1 cur seg = some t.nodes.length
    ∧ wfp (createChild t cur seg).1 := by
  obtain ⟨g, child, heq, hchild, hP1, hP2⟩ := createChild_parts t cur seg
  obtain ⟨r, hr⟩ := nodeAt_of_lt hc
  rw [heq]
  have hlen2 : (⟨(updateAt t cur g).nodes ++ [child]⟩ : Trie H).nodes.length
      = t.nodes.length + 1 := by
    simp [updateAt_length]
  have hpres : ∀ m, m ≠ cur → m < t.nodes.length →
      nodeAt (⟨(updateAt t cur g).nodes ++ [child]⟩ : Trie H) m = nodeAt t m := by
    intro m hne hm
    rw [nodeAt_append_lt (by rw [updateAt_length]; exact hm)]
    exact nodeAt_updateAt_ne g hne
  have hself : nodeAt (⟨(updateAt t cur g).nodes ++ [child]⟩ : Trie H) cur
      = some (g r) := by
    rw [nodeAt_append_lt (by rw [updateAt_length]; exact hc)]
    exact nodeAt_updateAt_self g hr
  have hnew : nodeAt (⟨(updateAt t cur g).nodes ++ [child]⟩ : Trie H)
      t.nodes.length = some child := by
    have h0 := nodeAt_append_len (t := updateAt t cur g) (c := child)
    rwa [updateAt_length] at h0
  refine ⟨rfl, hlen2, hpres, ?_, ?_⟩
  · simp only [subLookup, hself, hP1 r]
  · intro n k j hnk
    rw [hlen2]
    by_cases hcur : n = cur
    · subst hcur
      simp only [subLookup, hself] at hnk
      rcases hP2 r k j hnk with hj | hold
      · subst hj
        exact ⟨hc, by omega⟩
      · have h3 := hw n k j (by simp only [subLookup, hr]; exact hold)
        exact ⟨h3.1, by omega⟩
    · rcases Nat.lt_trichotomy n t.nodes.length with hlt | heqn | hgt
      · rw [subLookup_congr (hpres n hcur hlt) k] at hnk
        have h3 := hw n k j hnk
        exact ⟨h3.1, by omega⟩
      · subst heqn
        simp only [subLookup, hnew, hchild, lookupKey] at hnk
        cases hnk
      · have hnone : nodeAt (⟨(updateAt t cur g).nodes ++ [child]⟩ : Trie H) n
            = none := by
          unfold nodeAt
          refine List.get?_eq_none.mpr ?_
          have h4 := hlen2
          simp only [] at h4
          omega
        simp only [subLookup, hnone] at hnk
        cases hnk

/-- `Insert`'s segment walk preserves well-formedness, only grows the
arena, never touches nodes below the start index, and leaves behind a
pure-lookup path from the start node to the returned terminal node. -/
theorem insertWalk_spec :
    ∀ (chunks : List String) (t : Trie H) (cur : Nat),
      wfp t → cur < t.nodes.length →
      wfp (insertWalk t cur chunks).1
      ∧ t.nodes.length ≤ (insertWalk t cur chunks).1.nodes.length
      ∧ (insertWalk t cur chunks).2 < (insertWalk t cur chunks).1.nodes.length
      ∧ (∀ m, m < cur → nodeAt (insertWalk t cur chunks).1 m = nodeAt t m)
      ∧ walkPath (insertWalk t cur chunks).1 cur chunks
          = some (insertWalk t cur chunks).2 := by
  intro chunks
  induction chunks with
  | nil =>
    intro t cur hw hc
    exact ⟨hw, Nat.le_refl _, hc, fun m _ => rfl, rfl⟩
  | cons seg rest ih =>
    intro t cur hw hc
    cases hs : subLookup t cur seg with
    | some j =>
      have hstep : insertStep t cur seg = (t, j) := by simp only [insertStep, hs]
      have hj := hw cur seg j hs
      have hiw : insertWalk t cur (seg :: rest) = insertWalk t j rest := by
        simp only [insertWalk, hstep]
      obtain ⟨ha, hb, hcres, hd, he⟩ := ih t j hw hj.2
      rw [hiw]
      refine ⟨ha, hb, hcres, ?_, ?_⟩
      · intro m hm
        exact hd m (Nat.lt_trans hm hj.1)
      · have hcur : nodeAt (insertWalk t j rest).1 cur = nodeAt t cur := hd cur hj.1
        simp only [walkPath, subLookup_congr hcur, hs]
        exact he
    | none =>
      have hstep : insertStep t cur seg = createChild t cur seg := by
        simp only [insertStep, hs]
      obtain ⟨h2id, h2len, h2pres, h2sub, h2wf⟩ := createChild_spec seg hw hc
      have hiw : insertWalk t cur (seg :: rest)
          = insertWalk (createChild t cur seg).1 t.nodes.length rest := by
        simp only [insertWalk, hstep, h2id]
      have hnew' : t.nodes.length < (createChild t cur seg).1.nodes.length := by
        omega
      obtain ⟨ha, hb, hcres, hd, he⟩ :=
        ih (createChild t cur seg).1 t.nodes.length h2wf hnew'
      rw [hiw]
      refine ⟨ha, ?_, hcres, ?_, ?_⟩
      · omega
      · intro m hm
        rw [hd m (Nat.lt_trans hm hc)]
        exact h2pres m (Nat.ne_of_lt hm) (Nat.lt_trans hm hc)
      · have hcur2 : nodeAt (insertWalk (createChild t cur seg).1 t.nodes.length rest).1 cur
            = nodeAt (createChild t cur seg).1 cur := hd cur hc
        have hsub2 : subLookup (insertWalk (createChild t cur seg).1 t.nodes.length rest).1 cur seg
            = some t.nodes.length := by
          rw [subLookup_congr hcur2 seg]
          exact h2sub
        simp only [walkPath, hsub2]
        exact he

/-- `For` leaves the child structure untouched. -/
theorem subLookup_For (t : Trie H) (p : Nat) (m : String) (g : H)
    (n : Nat) (k : String) : subLookup (For t p m g) n k = subLookup t n k := by
  unfold For
  apply subLookup_updateAt_subpres
  intro r
  rfl

/-- `For` leaves the arena size untouched. -/
theorem For_length (t : Trie H) (p : Nat) (m : String) (g : H) :
    (For t p m g).nodes.length = t.nodes.length :=
  updateAt_length t p _

/-- `ccAt` reads the node's middleware chain. -/
theorem ccAt_eq {t : Trie H} {n : Nat} {r : RNode H} (h : nodeAt t n = some r) :
    ccAt t n = r.cc := by
  unfold ccAt
  rw [h]
  rfl

/-- Registering a handler twice for the same method on the same node
leaves exactly the second handler (wrapped by the node's chain) as the
lookup result. -/
theorem hmapAt_For_For {u : Trie H} {id : Nat} (m : String) (g g' : H)
    (hid : id < u.nodes.length) :
    hmapAt (For (For u id m g) id m g') id m = some (Connect g' (ccAt u id)) := by
  obtain ⟨r, hr⟩ := nodeAt_of_lt hid
  have h1 : nodeAt (For u id m g) id
      = some { r with hmap := setKey r.hmap m (Connect g r.cc) } :=
    nodeAt_updateAt_self _ hr
  have h2 : nodeAt (For (For u id m g) id m g') id
      = some { r with
          hmap := setKey (setKey r.hmap m (Connect g r.cc)) m (Connect g' r.cc) } :=
    nodeAt_updateAt_self _ h1
  simp [hmapAt, h2, lookupKey_setKey, ccAt_eq hr]

/-- C9: re-registration is idempotent on the trie structure.  Starting
from any well-formed arena, inserting a pattern (then registering a
handler on its terminal node) and inserting the same pattern again
yields the same terminal node and leaves the node count unchanged — the
second `Insert` creates no nodes.  And registering twice for the same
method on the same node leaves exactly the most recent handler (wrapped
by the node's chain) as the active lookup result. -/
theorem C9_reregistration :
    ∀ (H : Type) (t : Trie H) (p : Nat) (route m : String) (h : H)
      (cc cc' : List (H → H)),
      wfb t = true → p < t.nodes.length →
      (Insert (For (Insert t p route cc).1 (Insert t p route cc).2 m h) p route cc').2
          = (Insert t p route cc).2
      ∧ (Insert (For (Insert t p route cc).1 (Insert t p route cc).2 m h) p route cc').1.nodes.length
          = (Insert t p route cc).1.nodes.length
      ∧ (∀ (u : Trie H) (id : Nat) (g g' : H), id < u.nodes.length →
          hmapAt (For (For u id m g) id m g') id m
            = some (Connect g' (ccAt u id))) := by
  intro H t p route m h cc cc' hwb hp
  obtain ⟨ha, hb, hcres, hd, he⟩ :=
    insertWalk_spec (splitSlash (cleanPath route)) t p (wfp_of_wfb hwb) hp
  have e1a : (Insert t p route cc).1
      = updateAt (insertWalk t p (splitSlash (cleanPath route))).1
          (insertWalk t p (splitSlash (cleanPath route))).2
          (fun r => { r with cc := r.cc ++ cc }) := rfl
  have hsubIns : ∀ (n : Nat) (k : String),
      subLookup (Insert t p route cc).1 n k
        = subLookup (insertWalk t p (splitSlash (cleanPath route))).1 n k := by
    intro n k
    rw [e1a]
    apply subLookup_updateAt_subpres
    intro r
    rfl
  have hwalkIns : walkPath (Insert t p route cc).1 p (splitSlash (cleanPath route))
      = some (insertWalk t p (splitSlash (cleanPath route))).2 := by
    rw [walkPath_congr hsubIns]
    exact he
  have hsubFor : ∀ (n : Nat) (k : String),
      subLookup (For (Insert t p route cc).1 (Insert t p route cc).2 m h) n k
        = subLookup (Insert t p route cc).1 n k :=
    fun n k => subLookup_For _ _ _ _ n k
  have hwalkFor :
      walkPath (For (Insert t p route cc).1 (Insert t p route cc).2 m h) p
          (splitSlash (cleanPath route))
        = some (insertWalk t p (splitSlash (cleanPath route))).2 := by
    rw [walkPath_congr hsubFor]
    exact hwalkIns
  have hIW2 :=
    insertWalk_of_walkPath (splitSlash (cleanPath route)) p
      (insertWalk t p (splitSlash (cleanPath route))).2 hwalkFor
  have e2a : (Insert (For (Insert t p route cc).1 (Insert t p route cc).2 m h) p route cc').1
      = updateAt
          (insertWalk (For (Insert t p route cc).1 (Insert t p route cc).2 m h) p
            (splitSlash (cleanPath route))).1
          (insertWalk (For (Insert t p route cc).1 (Insert t p route cc).2 m h) p
            (splitSlash (cleanPath route))).2
          (fun r => { r with cc := r.cc ++ cc' }) := rfl
  have e2b : (Insert (For (Insert t p route cc).1 (Insert t p route cc).2 m h) p route cc').2
      = (insertWalk (For (Insert t p route cc).1 (Insert t p route cc).2 m h) p
          (splitSlash (cleanPath route))).2 := rfl
  refine ⟨?_, ?_, ?_⟩
  · rw [e2b, hIW2]
    rfl
  · rw [e2a, hIW2, updateAt_length]
    exact For_length _ _ _ _
  · intro u id g g' hid
    exact hmapAt_For_For m g g' hid

/-- Closed instance of `C9_reregistration` on the root trie over
handler type `Nat`: re-inserting `/a` returns the same terminal node,
keeps the node count at 3, and double registration for `"GET"` keeps
the second handler. -/
theorem C9_reregistration_witness :
    (Insert (For (Insert (rootTrie Nat) 0 "/a" []).1
        (Insert (rootTrie Nat) 0 "/a" []).2 "GET" 5) 0 "/a" []).2
      = (Insert (rootTrie Nat) 0 "/a" []).2
    ∧ (Insert (For (Insert (rootTrie Nat) 0 "/a" []).1
        (Insert (rootTrie Nat) 0 "/a" []).2 "GET" 5) 0 "/a" []).1.nodes.length
      = (Insert (rootTrie Nat) 0 "/a" []).1.nodes.length
    ∧ hmapAt (For (For (rootTrie Nat) 0 "GET" 5) 0 "GET" 7) 0 "GET"
      = some (Connect 7 (ccAt (rootTrie Nat) 0)) :=
  ⟨(C9_reregistration Nat (rootTrie Nat) 0 "/a" "GET" 5 [] []
      (by decide) (by decide)).1,
   (C9_reregistration Nat (rootTrie Nat) 0 "/a" "GET" 5 [] []
      (by decide) (by decide)).2.1,
   (C9_reregistration Nat (rootTrie Nat) 0 "/a" "GET" 5 [] []
      (by decide) (by decide)).2.2 (rootTrie Nat) 0 5 7 (by decide)⟩

end pi
